import Mathlib

/-!
Shallow embedding of the `type_key_vec` Rust crate.

The crate provides `TypeKeyVec<K, V>` (src/vec.rs), a wrapper around
`Vec<V>` indexable only by the key type `K`, and `TypeKeySlice<K, V>`
(src/slice.rs), a wrapper around `[V]`.  An earlier revision of
`TypeKeyVec` lives in src/lib.rs and is embedded in namespace `LibRs`.

Modelling choices:
  * `Vec<V>` and `[V]` become `List V`; positions are `Nat`.
  * `K: Into<usize>` becomes the class `IntoUsize K`;
    `K: From<usize>` becomes `FromUsize K`.
  * Operations that may panic (`Index`, `IndexMut`) return `Option`,
    where `none` models the panic.
  * A write through `IndexMut` is modelled by `index_mut_set`, which
    returns the updated container (or `none` on the panic path).
  * `std::slice::Iter<V>` is modelled by its remaining elements, a
    `List V`; its `size_hint` is `(len, Some len)`.
-/

/-- Models the Rust bound `K: Into<usize>`: the to-position conversion. -/
class IntoUsize (K : Type) where
  into : K → Nat

/-- Models the Rust bound `K: From<usize>`: the from-position conversion. -/
class FromUsize (K : Type) where
  fromUsize : Nat → K

/-- `TypeKeySlice<K, V>` from src/slice.rs: a transparent wrapper around
a contiguous region `[V]`, modelled as the list of its elements. -/
structure TypeKeySlice (K : Type) (V : Type) where
  inner : List V

/-- `TypeKeySlice::len` (src/slice.rs): `self.inner.len()`. -/
def TypeKeySlice.len {K V : Type} (s : TypeKeySlice K V) : Nat :=
  s.inner.length

/-- `TypeKeySlice::is_empty` (src/slice.rs): `self.inner.is_empty()`. -/
def TypeKeySlice.is_empty {K V : Type} (s : TypeKeySlice K V) : Bool :=
  s.inner.isEmpty

/-- `TypeKeySlice::fill` (src/slice.rs): `self.inner.fill(value)` —
every position is overwritten with a clone of `value`. -/
def TypeKeySlice.fill {K V : Type} (s : TypeKeySlice K V) (value : V) :
    TypeKeySlice K V :=
  ⟨s.inner.map (fun _ => value)⟩

/-- `TypeKeySlice::iter` (src/slice.rs): the slice iterator, modelled by
its remaining elements. -/
def TypeKeySlice.iter {K V : Type} (s : TypeKeySlice K V) : List V :=
  s.inner

/-- `TypeKeySlice::as_slice` (src/slice.rs). -/
def TypeKeySlice.as_slice {K V : Type} (s : TypeKeySlice K V) : List V :=
  s.inner

/-- `TypeKeySlice::get` (src/slice.rs): `self.inner.get(key.into())` —
bounds-checked read through the key type. -/
def TypeKeySlice.get {K V : Type} [IntoUsize K] (s : TypeKeySlice K V)
    (key : K) : Option V :=
  s.inner.get? (IntoUsize.into key)

/-- `TypeKeySlice::get_mut` (src/slice.rs): `self.inner.get_mut(key.into())`;
the value the returned mutable reference points to. -/
def TypeKeySlice.get_mut {K V : Type} [IntoUsize K] (s : TypeKeySlice K V)
    (key : K) : Option V :=
  s.inner.get? (IntoUsize.into key)

/-- Writing through `TypeKeySlice::get_mut`: when the reference exists the
element at the key's position is replaced, otherwise no write happens. -/
def TypeKeySlice.get_mut_set {K V : Type} [IntoUsize K] (s : TypeKeySlice K V)
    (key : K) (value : V) : Option (TypeKeySlice K V) :=
  if IntoUsize.into key < s.inner.length then
    some ⟨s.inner.set (IntoUsize.into key) value⟩
  else none

/-- `Index<K> for TypeKeySlice` (src/slice.rs): `&self.inner[index.into()]`;
`none` models the out-of-bounds panic. -/
def TypeKeySlice.index {K V : Type} [IntoUsize K] (s : TypeKeySlice K V)
    (i : K) : Option V :=
  s.inner.get? (IntoUsize.into i)

/-- `AsRef<TypeKeySlice<K, V>> for [V]` (src/slice.rs): the zero-copy
reinterpretation of a plain buffer as a typed view. -/
def sliceAsTypeKeySlice {K V : Type} (l : List V) : TypeKeySlice K V :=
  ⟨l⟩

/-- `TypeKeyVec<K, V>` from src/vec.rs: owns a growable `Vec<V>` tagged
with the index domain `K` (the `PhantomData<K>` marker carries no data). -/
structure TypeKeyVec (K : Type) (V : Type) where
  inner : List V

/-- `TypeKeyVec::default` (src/vec.rs `Default` impl): empty buffer. -/
def TypeKeyVec.default {K V : Type} : TypeKeyVec K V :=
  ⟨[]⟩

/-- `TypeKeyVec::new` (src/vec.rs): `Self::default()`. -/
def TypeKeyVec.new {K V : Type} : TypeKeyVec K V :=
  TypeKeyVec.default

/-- `TypeKeyVec::with_capacity` (src/vec.rs): `Vec::with_capacity(capacity)`
holds no elements; the capacity hint has no observable content. -/
def TypeKeyVec.with_capacity {K V : Type} (capacity : Nat) : TypeKeyVec K V :=
  ⟨[]⟩

/-- `TypeKeyVec::len` (src/vec.rs): `self.inner.len()`. -/
def TypeKeyVec.len {K V : Type} (v : TypeKeyVec K V) : Nat :=
  v.inner.length

/-- `TypeKeyVec::is_empty` (src/vec.rs): `self.inner.is_empty()`. -/
def TypeKeyVec.is_empty {K V : Type} (v : TypeKeyVec K V) : Bool :=
  v.inner.isEmpty

/-- `TypeKeyVec::push` (src/vec.rs): `self.inner.push(value)` appends at
the current length. -/
def TypeKeyVec.push {K V : Type} (v : TypeKeyVec K V) (value : V) :
    TypeKeyVec K V :=
  ⟨v.inner ++ [value]⟩

/-- `TypeKeyVec::clear` (src/vec.rs): `self.inner.clear()`. -/
def TypeKeyVec.clear {K V : Type} (v : TypeKeyVec K V) : TypeKeyVec K V :=
  ⟨[]⟩

/-- `TypeKeyVec::iter` (src/vec.rs): `self.inner.iter()`, modelled by the
sequence of elements it visits. -/
def TypeKeyVec.iter {K V : Type} (v : TypeKeyVec K V) : List V :=
  v.inner

/-- `TypeKeyVec::into_vec` (src/vec.rs): `self.inner`. -/
def TypeKeyVec.into_vec {K V : Type} (v : TypeKeyVec K V) : List V :=
  v.inner

/-- `TypeKeyVec::get` (src/vec.rs): `self.inner.get(key.into())`. -/
def TypeKeyVec.get {K V : Type} [IntoUsize K] (v : TypeKeyVec K V)
    (key : K) : Option V :=
  v.inner.get? (IntoUsize.into key)

/-- `TypeKeyVec::get_mut` (src/vec.rs): `self.inner.get_mut(key.into())`;
the value the returned mutable reference points to. -/
def TypeKeyVec.get_mut {K V : Type} [IntoUsize K] (v : TypeKeyVec K V)
    (key : K) : Option V :=
  v.inner.get? (IntoUsize.into key)

/-- `TypeKeyVec::clone` (src/vec.rs `Clone` impl): clones the buffer. -/
def TypeKeyVec.clone {K V : Type} (v : TypeKeyVec K V) : TypeKeyVec K V :=
  ⟨v.inner⟩

/-- `Index<K> for TypeKeyVec` (src/vec.rs): `&self.inner[index.into()]`;
`none` models the out-of-bounds panic. -/
def TypeKeyVec.index {K V : Type} [IntoUsize K] (v : TypeKeyVec K V)
    (i : K) : Option V :=
  v.inner.get? (IntoUsize.into i)

/-- `IndexMut<K> for TypeKeyVec` (src/vec.rs): `&mut self.inner[index.into()]`
followed by a write through the reference; `none` models the panic. -/
def TypeKeyVec.index_mut_set {K V : Type} [IntoUsize K] (v : TypeKeyVec K V)
    (i : K) (value : V) : Option (TypeKeyVec K V) :=
  if IntoUsize.into i < v.inner.length then
    some ⟨v.inner.set (IntoUsize.into i) value⟩
  else none

/-- `From<Vec<V>> for TypeKeyVec` (src/vec.rs): adopts the buffer verbatim. -/
def TypeKeyVec.fromVec {K V : Type} (inner : List V) : TypeKeyVec K V :=
  ⟨inner⟩

/-- `Deref for TypeKeyVec` (src/vec.rs): `self.inner.as_slice().as_ref()`. -/
def TypeKeyVec.deref {K V : Type} (v : TypeKeyVec K V) : TypeKeySlice K V :=
  sliceAsTypeKeySlice v.inner

/-- A sequence of pushes, left to right (helper for stating C1). -/
def TypeKeyVec.pushAll {K V : Type} (v : TypeKeyVec K V) (values : List V) :
    TypeKeyVec K V :=
  values.foldl TypeKeyVec.push v

/-- `Enumerate<K, I>` (src/slice.rs) specialised to the slice iterators the
crate builds it over: it wraps `std::iter::Enumerate<I>`, modelled as the
front counter together with the remaining elements. -/
structure Enumerate (K : Type) (V : Type) where
  count : Nat
  iter : List V

/-- `Enumerate::new` (src/slice.rs): `iter.enumerate()` starts counting at 0. -/
def Enumerate.new {K V : Type} (it : List V) : Enumerate K V :=
  ⟨0, it⟩

/-- `TypeKeySlice::enumerate` (src/slice.rs): `Enumerate::new(self.iter())`. -/
def TypeKeySlice.enumerate {K V : Type} (s : TypeKeySlice K V) :
    Enumerate K V :=
  Enumerate.new s.iter

/-- `Iterator::next for Enumerate` (src/slice.rs):
`self.iter.next().map(|(i, v)| (K::from(i), v))`. -/
def Enumerate.next {K V : Type} [FromUsize K] :
    Enumerate K V → Option ((K × V) × Enumerate K V)
  | ⟨_, []⟩ => none
  | ⟨i, x :: xs⟩ => some ((FromUsize.fromUsize i, x), ⟨i + 1, xs⟩)

/-- `DoubleEndedIterator::next_back for Enumerate` (src/slice.rs):
`self.iter.next_back().map(|(i, v)| (K::from(i), v))`; the wrapped
`std::iter::Enumerate` over an exact-size iterator pairs the back element
with its original position `count + remaining - 1`. -/
def Enumerate.next_back {K V : Type} [FromUsize K] :
    Enumerate K V → Option ((K × V) × Enumerate K V)
  | ⟨_, []⟩ => none
  | ⟨i, x :: xs⟩ =>
      some ((FromUsize.fromUsize (i + (x :: xs).length - 1),
             (x :: xs).getLast (by simp)),
            ⟨i, (x :: xs).dropLast⟩)

/-- `size_hint` of the modelled slice iterator: `(len, Some(len))`. -/
def sliceIterSizeHint {V : Type} (it : List V) : Nat × Option Nat :=
  (it.length, some it.length)

/-- `Iterator::size_hint for Enumerate` (src/slice.rs):
`self.iter.size_hint()`, which `std::iter::Enumerate` passes through from
the wrapped iterator. -/
def Enumerate.size_hint {K V : Type} (e : Enumerate K V) : Nat × Option Nat :=
  sliceIterSizeHint e.iter

/-- All the items `Enumerate` yields through repeated `next`, in order. -/
def Enumerate.collectNext {K V : Type} [FromUsize K] :
    Enumerate K V → List (K × V)
  | ⟨_, []⟩ => []
  | ⟨i, x :: xs⟩ => (FromUsize.fromUsize i, x) :: Enumerate.collectNext ⟨i + 1, xs⟩
termination_by e => e.iter.length

/-- All the items `Enumerate` yields through repeated `next_back`, in the
order they are yielded. -/
def Enumerate.collectBack {K V : Type} [FromUsize K] :
    Enumerate K V → List (K × V)
  | ⟨_, []⟩ => []
  | ⟨i, x :: xs⟩ =>
      (FromUsize.fromUsize (i + (x :: xs).length - 1), (x :: xs).getLast (by simp)) ::
        Enumerate.collectBack ⟨i, (x :: xs).dropLast⟩
termination_by e => e.iter.length
decreasing_by
  simp [List.length_dropLast]

namespace LibRs

/-- `TypeKeyVec<K, V>` from src/lib.rs, the earlier revision (its struct
carries the extra bound `K: Into<usize>`, which stores no data). -/
structure TypeKeyVec (K : Type) (V : Type) [IntoUsize K] where
  inner : List V

variable {K V : Type} [IntoUsize K]

/-- `TypeKeyVec::default` (src/lib.rs `Default` impl). -/
def TypeKeyVec.default : TypeKeyVec K V :=
  ⟨[]⟩

/-- `TypeKeyVec::new` (src/lib.rs): `Self::default()`. -/
def TypeKeyVec.new : TypeKeyVec K V :=
  TypeKeyVec.default

/-- `TypeKeyVec::with_capacity` (src/lib.rs). -/
def TypeKeyVec.with_capacity (capacity : Nat) : TypeKeyVec K V :=
  ⟨[]⟩

/-- `TypeKeyVec::push` (src/lib.rs). -/
def TypeKeyVec.push (v : TypeKeyVec K V) (value : V) : TypeKeyVec K V :=
  ⟨v.inner ++ [value]⟩

/-- `TypeKeyVec::get` (src/lib.rs): `self.inner.get(key.into())`. -/
def TypeKeyVec.get (v : TypeKeyVec K V) (key : K) : Option V :=
  v.inner.get? (IntoUsize.into key)

/-- `TypeKeyVec::len` (src/lib.rs). -/
def TypeKeyVec.len (v : TypeKeyVec K V) : Nat :=
  v.inner.length

/-- `TypeKeyVec::is_empty` (src/lib.rs). -/
def TypeKeyVec.is_empty (v : TypeKeyVec K V) : Bool :=
  v.inner.isEmpty

/-- `TypeKeyVec::iter` (src/lib.rs). -/
def TypeKeyVec.iter (v : TypeKeyVec K V) : List V :=
  v.inner

/-- `TypeKeyVec::clone` (src/lib.rs `Clone` impl). -/
def TypeKeyVec.clone (v : TypeKeyVec K V) : TypeKeyVec K V :=
  ⟨v.inner⟩

/-- `Index<K> for TypeKeyVec` (src/lib.rs); `none` models the panic. -/
def TypeKeyVec.index (v : TypeKeyVec K V) (i : K) : Option V :=
  v.inner.get? (IntoUsize.into i)

/-- `From<Vec<V>> for TypeKeyVec` (src/lib.rs). -/
def TypeKeyVec.fromVec (inner : List V) : TypeKeyVec K V :=
  ⟨inner⟩

end LibRs

/-- Modelled from the spec: the derive-generated serde/rkyv encoding
(src/vec.rs lines 14–23) is not part of the crate's own source; per the
spec a `TypeKeyVec` "can be encoded as an ordered sequence of its values"
and the index-domain marker is never persisted. -/
def TypeKeyVec.encode {K V : Type} (v : TypeKeyVec K V) : List V :=
  v.inner

/-- Modelled from the spec: decoding reads back the ordered values and
"positions are reassigned 0..N in order"; the index-domain parameter of
the decoded vector is arbitrary. -/
def TypeKeyVec.decode {K V : Type} (values : List V) : TypeKeyVec K V :=
  ⟨values⟩

/-- A concrete newtype key, standing in for a caller's index domain. -/
structure NodeId where
  val : Nat
deriving DecidableEq

instance : IntoUsize NodeId :=
  ⟨NodeId.val⟩

instance : FromUsize NodeId :=
  ⟨NodeId.mk⟩

/-- A sequence of pushes appends the pushed values in order. -/
theorem pushAll_inner {K V : Type} (v : TypeKeyVec K V) (vs : List V) :
    (TypeKeyVec.pushAll v vs).inner = v.inner ++ vs := by
  induction vs generalizing v with
  | nil => simp [TypeKeyVec.pushAll]
  | cons x xs ih =>
      show (TypeKeyVec.pushAll (v.push x) xs).inner = _
      rw [ih]
      simp [TypeKeyVec.push]

/-- C1: for every sequence of N pushes onto an initially empty `TypeKeyVec`,
`len` returns N, and for every i in [0,N), `get` at a key whose to-position
conversion yields i returns the i-th pushed value. -/
theorem C1_push_len_get {K V : Type} [IntoUsize K] (vs : List V) :
    (TypeKeyVec.pushAll (TypeKeyVec.new : TypeKeyVec K V) vs).len = vs.length ∧
    ∀ (i : Nat) (h : i < vs.length) (k : K), IntoUsize.into k = i →
      (TypeKeyVec.pushAll (TypeKeyVec.new : TypeKeyVec K V) vs).get k =
        some (vs.get ⟨i, h⟩) := by
  constructor
  · simp [TypeKeyVec.len, pushAll_inner, TypeKeyVec.new, TypeKeyVec.default]
  · intro i h k hk
    simp only [TypeKeyVec.get, pushAll_inner, TypeKeyVec.new, TypeKeyVec.default,
      List.nil_append, hk]
    exact List.get?_eq_get h

/-- Witness for C1 at pushes [10, 20, 30] and the key converting to 1. -/
theorem C1_push_len_get_witness :
    (TypeKeyVec.pushAll (TypeKeyVec.new : TypeKeyVec NodeId Nat)
      [10, 20, 30]).get ⟨1⟩ = some 20 := by
  have h := (@C1_push_len_get NodeId Nat _ [10, 20, 30]).2 1 (by decide) ⟨1⟩ rfl
  simpa using h

/-- C2: `get` and `get_mut` on `TypeKeyVec` and `TypeKeySlice` return `none`
exactly when the key's converted position is ≥ the length, return the element
at that position otherwise, and are total functions (never panic). -/
theorem C2_get_fail_soft {K V : Type} [IntoUsize K] (v : TypeKeyVec K V)
    (s : TypeKeySlice K V) (k : K) :
    (v.get k = none ↔ v.len ≤ IntoUsize.into k) ∧
    (v.get_mut k = none ↔ v.len ≤ IntoUsize.into k) ∧
    (s.get k = none ↔ s.len ≤ IntoUsize.into k) ∧
    (s.get_mut k = none ↔ s.len ≤ IntoUsize.into k) ∧
    (∀ h : IntoUsize.into k < v.len,
      v.get k = some (v.inner.get ⟨IntoUsize.into k, h⟩) ∧
      v.get_mut k = some (v.inner.get ⟨IntoUsize.into k, h⟩)) ∧
    (∀ h : IntoUsize.into k < s.len,
      s.get k = some (s.inner.get ⟨IntoUsize.into k, h⟩) ∧
      s.get_mut k = some (s.inner.get ⟨IntoUsize.into k, h⟩)) := by
  refine ⟨?_, ?_, ?_, ?_, ?_, ?_⟩
  · exact List.get?_eq_none
  · exact List.get?_eq_none
  · exact List.get?_eq_none
  · exact List.get?_eq_none
  · intro h
    exact ⟨List.get?_eq_get h, List.get?_eq_get h⟩
  · intro h
    exact ⟨List.get?_eq_get h, List.get?_eq_get h⟩

/-- Witness for C2 on a length-2 vector and a length-2 slice. -/
theorem C2_get_fail_soft_witness :
    (TypeKeyVec.fromVec [10, 20] : TypeKeyVec NodeId Nat).get ⟨5⟩ = none ∧
    (sliceAsTypeKeySlice [10, 20] : TypeKeySlice NodeId Nat).get ⟨0⟩ = some 10 := by
  constructor
  · exact (@C2_get_fail_soft NodeId Nat _ (TypeKeyVec.fromVec [10, 20])
      (sliceAsTypeKeySlice [10, 20]) ⟨5⟩).1.mpr (by decide)
  · have h := ((@C2_get_fail_soft NodeId Nat _ (TypeKeyVec.fromVec [10, 20])
      (sliceAsTypeKeySlice [10, 20]) ⟨0⟩).2.2.2.2.2 (by decide)).1
    simpa using h

/-- C5: `fill v` makes every position in [0, length) equal to `v`, leaves
the length unchanged, and afterwards `get` at any in-range key returns `v`. -/
theorem C5_fill {K V : Type} [IntoUsize K] (s : TypeKeySlice K V) (x : V) :
    (s.fill x).len = s.len ∧
    (∀ i : Nat, i < s.len → (s.fill x).inner.get? i = some x) ∧
    (∀ k : K, IntoUsize.into k < s.len → (s.fill x).get k = some x) := by
  refine ⟨by simp [TypeKeySlice.fill, TypeKeySlice.len], ?_, ?_⟩
  · intro i hi
    simp only [TypeKeySlice.fill, List.get?_map]
    rw [List.get?_eq_get hi]
    rfl
  · intro k hk
    simp only [TypeKeySlice.get, TypeKeySlice.fill, List.get?_map]
    rw [List.get?_eq_get hk]
    rfl

/-- Witness for C5: filling a length-3 slice with 7. -/
theorem C5_fill_witness :
    ((sliceAsTypeKeySlice [1, 2, 3] : TypeKeySlice NodeId Nat).fill 7).get ⟨2⟩ =
      some 7 := by
  exact (@C5_fill NodeId Nat _ (sliceAsTypeKeySlice [1, 2, 3]) 7).2.2 ⟨2⟩ (by decide)

/-- C6: constructing from a plain vector adopts the values verbatim with no
validation, and writing through `IndexMut` at an in-range key replaces only
that position. -/
theorem C6_fromVec {K V : Type} [IntoUsize K] (vs : List V) (k : K) (x : V) :
    (TypeKeyVec.fromVec vs : TypeKeyVec K V).len = vs.length ∧
    (∀ i : Nat, (TypeKeyVec.fromVec vs : TypeKeyVec K V).inner.get? i = vs.get? i) ∧
    (IntoUsize.into k < vs.length →
      (TypeKeyVec.fromVec vs : TypeKeyVec K V).index_mut_set k x =
        some (TypeKeyVec.fromVec (vs.set (IntoUsize.into k) x))) := by
  refine ⟨rfl, fun _ => rfl, ?_⟩
  intro h
  simp [TypeKeyVec.index_mut_set, TypeKeyVec.fromVec, h]

/-- Witness for C6: from [10, 20, 30], writing 99 at position 1 gives
sequential contents [10, 99, 30]. -/
theorem C6_fromVec_witness :
    (TypeKeyVec.fromVec [10, 20, 30] : TypeKeyVec NodeId Nat).index_mut_set
      ⟨1⟩ 99 = some (TypeKeyVec.fromVec [10, 99, 30]) := by
  have h := (@C6_fromVec NodeId Nat _ [10, 20, 30] ⟨1⟩ 99).2.2 (by decide)
  simpa using h

/-- C7: the vector's `get` agrees with the `get` of the `TypeKeySlice` it
dereferences to, and iterating the vector visits the same elements in the
same order as iterating that view. -/
theorem C7_deref_delegates {K V : Type} [IntoUsize K] (v : TypeKeyVec K V)
    (k : K) :
    v.get k = (v.deref).get k ∧ v.iter = (v.deref).iter :=
  ⟨rfl, rfl⟩

/-- C8: encode then decode reproduces the same ordered values, for any pair
of index-domain parameters; only the ordered values are persisted and they
occupy positions 0..N in order. -/
theorem C8_round_trip {K K2 V : Type} (v : TypeKeyVec K V) :
    (TypeKeyVec.decode v.encode : TypeKeyVec K2 V).inner = v.inner ∧
    ∀ i : Nat, (TypeKeyVec.decode v.encode : TypeKeyVec K2 V).inner.get? i =
      v.inner.get? i :=
  ⟨rfl, fun _ => rfl⟩

/-- C9: `new` and `with_capacity c` contain no elements for any `c`: length
0, `is_empty` true, and `get` at a key converting to position 0 is `none`. -/
theorem C9_new_with_capacity_empty {K V : Type} [IntoUsize K] (c : Nat)
    (k : K) :
    (TypeKeyVec.new : TypeKeyVec K V).len = 0 ∧
    (TypeKeyVec.new : TypeKeyVec K V).is_empty = true ∧
    (TypeKeyVec.with_capacity c : TypeKeyVec K V).len = 0 ∧
    (TypeKeyVec.with_capacity c : TypeKeyVec K V).is_empty = true ∧
    (IntoUsize.into k = 0 →
      (TypeKeyVec.new : TypeKeyVec K V).get k = none ∧
      (TypeKeyVec.with_capacity c : TypeKeyVec K V).get k = none) := by
  refine ⟨rfl, rfl, rfl, rfl, fun _ => ⟨rfl, rfl⟩⟩

/-- Witness for C9 at capacity 7 and the key converting to 0. -/
theorem C9_new_with_capacity_empty_witness :
    (TypeKeyVec.new : TypeKeyVec NodeId Nat).get ⟨0⟩ = none ∧
    (TypeKeyVec.with_capacity 7 : TypeKeyVec NodeId Nat).get ⟨0⟩ = none :=
  (@C9_new_with_capacity_empty NodeId Nat _ 7 ⟨0⟩).2.2.2.2 rfl

/-- C3: direct indexed read (`Index`) and write (`IndexMut`) panic (modelled
by `none`) exactly when the key's converted position is ≥ the length; an
in-range read returns the element at that position, and an in-range write
replaces that position and no other. -/
theorem C3_index_fail_fast {K V : Type} [IntoUsize K] (v : TypeKeyVec K V)
    (s : TypeKeySlice K V) (k : K) (x : V) :
    (v.index k = none ↔ v.len ≤ IntoUsize.into k) ∧
    (∀ h : IntoUsize.into k < v.len,
      v.index k = some (v.inner.get ⟨IntoUsize.into k, h⟩)) ∧
    (s.index k = none ↔ s.len ≤ IntoUsize.into k) ∧
    (∀ h : IntoUsize.into k < s.len,
      s.index k = some (s.inner.get ⟨IntoUsize.into k, h⟩)) ∧
    (v.index_mut_set k x = none ↔ v.len ≤ IntoUsize.into k) ∧
    (IntoUsize.into k < v.len →
      ∃ w : TypeKeyVec K V, v.index_mut_set k x = some w ∧
        w.len = v.len ∧
        w.inner.get? (IntoUsize.into k) = some x ∧
        ∀ j : Nat, j ≠ IntoUsize.into k → w.inner.get? j = v.inner.get? j) := by
  refine ⟨List.get?_eq_none, fun h => List.get?_eq_get h, List.get?_eq_none,
    fun h => List.get?_eq_get h, ?_, ?_⟩
  · by_cases hlt : IntoUsize.into k < v.inner.length
    · simp [TypeKeyVec.index_mut_set, TypeKeyVec.len, hlt, Nat.not_le.mpr hlt]
    · simp [TypeKeyVec.index_mut_set, TypeKeyVec.len, hlt, Nat.not_lt.mp hlt]
  · intro h
    have h' : IntoUsize.into k < v.inner.length := h
    refine ⟨⟨v.inner.set (IntoUsize.into k) x⟩, ?_, ?_, ?_, ?_⟩
    · simp [TypeKeyVec.index_mut_set, h']
    · simp [TypeKeyVec.len]
    · exact List.get?_set_eq_of_lt x h'
    · intro j hj
      exact List.get?_set_ne x v.inner (Ne.symm hj)

/-- Witness for C3: direct-index access at position 5 on a length-3 vector
panics for both read and write. -/
theorem C3_index_fail_fast_witness :
    (TypeKeyVec.fromVec [1, 2, 3] : TypeKeyVec NodeId Nat).index ⟨5⟩ = none ∧
    (TypeKeyVec.fromVec [1, 2, 3] : TypeKeyVec NodeId Nat).index_mut_set
      ⟨5⟩ 9 = none := by
  constructor
  · exact (@C3_index_fail_fast NodeId Nat _ (TypeKeyVec.fromVec [1, 2, 3])
      (sliceAsTypeKeySlice [1, 2, 3]) ⟨5⟩ 9).1.mpr (by decide)
  · exact (@C3_index_fail_fast NodeId Nat _ (TypeKeyVec.fromVec [1, 2, 3])
      (sliceAsTypeKeySlice [1, 2, 3]) ⟨5⟩ 9).2.2.2.2.1.mpr (by decide)

/-- Unfolding `collectNext` on an exhausted iterator. -/
theorem collectNext_nil {K V : Type} [FromUsize K] (i : Nat) :
    Enumerate.collectNext (⟨i, ([] : List V)⟩ : Enumerate K V) = [] := by
  rw [Enumerate.collectNext]

/-- Unfolding `collectNext` on a nonempty iterator: `next` yields the front
element paired with the current count. -/
theorem collectNext_cons {K V : Type} [FromUsize K] (i : Nat) (x : V)
    (xs : List V) :
    Enumerate.collectNext (⟨i, x :: xs⟩ : Enumerate K V) =
      (FromUsize.fromUsize i, x) :: Enumerate.collectNext ⟨i + 1, xs⟩ := by
  rw [Enumerate.collectNext]

/-- Unfolding `collectBack` on an exhausted iterator. -/
theorem collectBack_nil {K V : Type} [FromUsize K] (i : Nat) :
    Enumerate.collectBack (⟨i, ([] : List V)⟩ : Enumerate K V) = [] := by
  rw [Enumerate.collectBack]

/-- Unfolding `collectBack` on a nonempty iterator: `next_back` yields the
back element paired with its original position. -/
theorem collectBack_cons {K V : Type} [FromUsize K] (i : Nat) (x : V)
    (xs : List V) :
    Enumerate.collectBack (⟨i, x :: xs⟩ : Enumerate K V) =
      (FromUsize.fromUsize (i + (x :: xs).length - 1),
        (x :: xs).getLast (by simp)) ::
        Enumerate.collectBack ⟨i, (x :: xs).dropLast⟩ := by
  rw [Enumerate.collectBack]

/-- Repeated `next` enumerates the remaining elements with counts starting
at the current counter. -/
theorem collectNext_enumFrom {K V : Type} [FromUsize K] (i : Nat)
    (l : List V) :
    Enumerate.collectNext (⟨i, l⟩ : Enumerate K V) =
      (l.enumFrom i).map (fun p => (FromUsize.fromUsize p.1, p.2)) := by
  induction l generalizing i with
  | nil => rw [collectNext_nil]; rfl
  | cons x xs ih => rw [collectNext_cons, ih]; rfl

/-- `collectNext` splits over an append of the remaining elements. -/
theorem collectNext_append {K V : Type} [FromUsize K] (i : Nat)
    (xs ys : List V) :
    Enumerate.collectNext (⟨i, xs ++ ys⟩ : Enumerate K V) =
      Enumerate.collectNext ⟨i, xs⟩ ++
        Enumerate.collectNext ⟨i + xs.length, ys⟩ := by
  induction xs generalizing i with
  | nil => simp [collectNext_nil]
  | cons x xs ih =>
      rw [List.cons_append, collectNext_cons, collectNext_cons, ih]
      simp only [List.length_cons, List.cons_append]
      rw [Nat.add_comm xs.length 1, ← Nat.add_assoc]

/-- `collectBack` on an iterator whose last element is exposed. -/
theorem collectBack_concat {K V : Type} [FromUsize K] (i : Nat) (ys : List V)
    (y : V) :
    Enumerate.collectBack (⟨i, ys ++ [y]⟩ : Enumerate K V) =
      (FromUsize.fromUsize (i + ys.length), y) ::
        Enumerate.collectBack ⟨i, ys⟩ := by
  cases ys with
  | nil => rw [List.nil_append, collectBack_cons]; simp [collectBack_nil]
  | cons z zs =>
      rw [List.cons_append, collectBack_cons]
      have hlast : (z :: (zs ++ [y])).getLast (by simp) = y := by
        have h1 : (z :: (zs ++ [y])).getLast? = some y := by
          rw [← List.cons_append]
          exact List.getLast?_concat _
        rw [List.getLast?_eq_getLast (z :: (zs ++ [y])) (by simp)] at h1
        exact Option.some.inj h1
      have hdrop : (z :: (zs ++ [y])).dropLast = z :: zs := by
        rw [← List.cons_append]
        exact List.dropLast_concat
      have hlen : i + (z :: (zs ++ [y])).length - 1 = i + (z :: zs).length := by
        simp
      rw [hlast, hdrop, hlen]

/-- Exhausting the adapter from the back yields exactly the reverse of
exhausting it from the front. -/
theorem collectBack_eq_reverse {K V : Type} [FromUsize K] (i : Nat)
    (l : List V) :
    Enumerate.collectBack (⟨i, l⟩ : Enumerate K V) =
      (Enumerate.collectNext ⟨i, l⟩).reverse := by
  induction l using List.reverseRecOn with
  | nil => rw [collectBack_nil, collectNext_nil]; rfl
  | append_singleton ys y ih =>
      rw [collectBack_concat, ih, collectNext_append, collectNext_cons,
        collectNext_nil, List.reverse_append]
      rfl

/-- C4: forward enumeration of a `TypeKeySlice` yields
`(fromUsize 0, v0), (fromUsize 1, v1), …` in position order; reverse
enumeration through `next_back` yields exactly the reverse of that sequence
with the same typed indices; and the adapter's `size_hint` equals that of
the wrapped iterator. -/
theorem C4_enumerate_order {K V : Type} [FromUsize K] (s : TypeKeySlice K V) :
    Enumerate.collectNext s.enumerate =
      s.inner.enum.map (fun p => (FromUsize.fromUsize p.1, p.2)) ∧
    Enumerate.collectBack s.enumerate =
      (Enumerate.collectNext s.enumerate).reverse ∧
    s.enumerate.size_hint = sliceIterSizeHint s.iter := by
  refine ⟨?_, ?_, rfl⟩
  · have h := collectNext_enumFrom (K := K) 0 s.inner
    rw [List.enum_eq_enumFrom]
    exact h
  · exact collectBack_eq_reverse (K := K) 0 s.inner

/-- C10: the earlier `TypeKeyVec` of src/lib.rs and the `TypeKeyVec` of
src/vec.rs behave identically on every operation they share: starting from
equal contents, each shared operation yields equal results and equal
resulting contents. -/
theorem C10_lib_revision_equiv {K V : Type} [IntoUsize K] (a : TypeKeyVec K V)
    (b : LibRs.TypeKeyVec K V) (h : a.inner = b.inner) (c : Nat) (k : K)
    (x : V) (vs : List V) :
    (TypeKeyVec.new : TypeKeyVec K V).inner =
      (LibRs.TypeKeyVec.new : LibRs.TypeKeyVec K V).inner ∧
    (TypeKeyVec.with_capacity c : TypeKeyVec K V).inner =
      (LibRs.TypeKeyVec.with_capacity c : LibRs.TypeKeyVec K V).inner ∧
    (a.push x).inner = (b.push x).inner ∧
    a.get k = b.get k ∧
    a.len = b.len ∧
    a.is_empty = b.is_empty ∧
    a.iter = b.iter ∧
    (TypeKeyVec.fromVec vs : TypeKeyVec K V).inner =
      (LibRs.TypeKeyVec.fromVec vs : LibRs.TypeKeyVec K V).inner ∧
    a.index k = b.index k ∧
    a.clone.inner = b.clone.inner ∧
    (TypeKeyVec.default : TypeKeyVec K V).inner =
      (LibRs.TypeKeyVec.default : LibRs.TypeKeyVec K V).inner := by
  refine ⟨rfl, rfl, ?_, ?_, ?_, ?_, ?_, rfl, ?_, ?_, rfl⟩ <;>
    simp [h, TypeKeyVec.push, LibRs.TypeKeyVec.push, TypeKeyVec.get,
      LibRs.TypeKeyVec.get, TypeKeyVec.len, LibRs.TypeKeyVec.len,
      TypeKeyVec.is_empty, LibRs.TypeKeyVec.is_empty, TypeKeyVec.iter,
      LibRs.TypeKeyVec.iter, TypeKeyVec.index, LibRs.TypeKeyVec.index,
      TypeKeyVec.clone, LibRs.TypeKeyVec.clone]

/-- Witness for C10 on two containers with equal contents [1, 2]. -/
theorem C10_lib_revision_equiv_witness :
    (TypeKeyVec.fromVec [1, 2] : TypeKeyVec NodeId Nat).get ⟨0⟩ =
      (LibRs.TypeKeyVec.fromVec [1, 2] : LibRs.TypeKeyVec NodeId Nat).get
        ⟨0⟩ :=
  (@C10_lib_revision_equiv NodeId Nat _ (TypeKeyVec.fromVec [1, 2])
    (LibRs.TypeKeyVec.fromVec [1, 2]) rfl 0 ⟨0⟩ 5 []).2.2.2.1
